import Mathlib

/-!
Verification of the script-shot Getty app core (shallow embedding).

The definitions below are translated from the application source
(`server.js`, which contains the Express proxy followed by the React
`App` component). Pure fragments become Lean functions; the React
`useState` setters become explicit state passing on an `AppState`
record; network calls become function parameters (`provider`,
`fetchFn`); JavaScript's falsy-string coalescing (`x || y`) is made
explicit. Theorems then settle the frozen claims about the
Selection Ledger, the Search Aggregator, the Export Compiler, the
Bundle Packager and the reset handler.
-/

namespace ScriptShot

/-- Media kind, mirroring the `'video' | 'photo'` union type. -/
inductive MediaType where
  | video
  | photo
deriving DecidableEq, Repr

/-- The `Person` interface: a person extracted from the script. -/
structure Person where
  name : String
  searchTerm : String
deriving DecidableEq, Repr

/-- The `GettyMedia` interface: one normalized search result. -/
structure GettyMedia where
  id : String
  title : String
  thumbnailUrl : String
  previewUrl : String
  compUrl : String
  dateCreated : String
deriving DecidableEq, Repr

/-- The `PersonGettyResults` interface: one entity's result set. -/
structure PersonGettyResults where
  person : Person
  videos : List GettyMedia
  photos : List GettyMedia
deriving DecidableEq, Repr

/-- The `SelectedItem` interface: one entry of the selection ledger. -/
structure SelectedItem where
  personIndex : Nat
  personName : String
  mediaId : String
  mediaType : MediaType
  compUrl : String
  fileName : String
deriving DecidableEq, Repr

/-- File-extension choice used by `toggleSelection`:
`type === 'video' ? 'mp4' : 'jpg'`. -/
def extOf (kind : MediaType) : String :=
  if kind == MediaType.video then "mp4" else "jpg"

/-- The selection object `toggleSelection` appends when the pair was
not yet selected. -/
def mkToggleItem (personIndex : Nat) (personName : String) (media : GettyMedia)
    (kind : MediaType) : SelectedItem :=
  { personIndex := personIndex
    personName := personName
    mediaId := media.id
    mediaType := kind
    compUrl := media.compUrl
    fileName := media.id ++ "." ++ extOf kind }

/-- Source `toggleSelection`: find an existing selection with the same
`(personIndex, mediaId)`; remove it if present (`filter` on the index,
i.e. `eraseIdx`), else append a new selection. -/
def toggleSelection (personIndex : Nat) (personName : String) (media : GettyMedia)
    (kind : MediaType) (prev : List SelectedItem) : List SelectedItem :=
  match prev.findIdx? (fun item => item.personIndex == personIndex && item.mediaId == media.id) with
  | some existingIndex => prev.eraseIdx existingIndex
  | none => prev ++ [mkToggleItem personIndex personName media kind]

/-- Source `isSelected`: membership query on the ledger. -/
def isSelected (personIndex : Nat) (mediaId : String)
    (selectedItems : List SelectedItem) : Bool :=
  selectedItems.any (fun item => item.personIndex == personIndex && item.mediaId == mediaId)

/-- The selection object `selectAllVideos` builds for one video. -/
def mkVideoSelection (personIndex : Nat) (personName : String)
    (video : GettyMedia) : SelectedItem :=
  { personIndex := personIndex
    personName := personName
    mediaId := video.id
    mediaType := MediaType.video
    compUrl := video.compUrl
    fileName := video.id ++ ".mp4" }

/-- The selection object `selectAllPhotos` builds for one photo. -/
def mkPhotoSelection (personIndex : Nat) (personName : String)
    (photo : GettyMedia) : SelectedItem :=
  { personIndex := personIndex
    personName := personName
    mediaId := photo.id
    mediaType := MediaType.photo
    compUrl := photo.compUrl
    fileName := photo.id ++ ".jpg" }

/-- Source `selectAllVideos`: drop the existing video selections of this
person, then append one selection per listed video. -/
def selectAllVideos (personIndex : Nat) (personName : String)
    (videos : List GettyMedia) (prev : List SelectedItem) : List SelectedItem :=
  (prev.filter fun item =>
      !(item.personIndex == personIndex && item.mediaType == MediaType.video))
    ++ videos.map (mkVideoSelection personIndex personName)

/-- Source `selectAllPhotos`: drop the existing photo selections of this
person, then append one selection per listed photo. -/
def selectAllPhotos (personIndex : Nat) (personName : String)
    (photos : List GettyMedia) (prev : List SelectedItem) : List SelectedItem :=
  (prev.filter fun item =>
      !(item.personIndex == personIndex && item.mediaType == MediaType.photo))
    ++ photos.map (mkPhotoSelection personIndex personName)

/-- Source `deselectAllVideos`: remove this person's video selections. -/
def deselectAllVideos (personIndex : Nat) (prev : List SelectedItem) : List SelectedItem :=
  prev.filter fun item =>
    !(item.personIndex == personIndex && item.mediaType == MediaType.video)

/-- Source `deselectAllPhotos`: remove this person's photo selections. -/
def deselectAllPhotos (personIndex : Nat) (prev : List SelectedItem) : List SelectedItem :=
  prev.filter fun item =>
    !(item.personIndex == personIndex && item.mediaType == MediaType.photo)

/-- Source `selectAllVideosGlobal`: the selections built from every result
row's video list, in row order (the `forEach` over `gettyResults`). -/
def allVideoSelections (gettyResults : List PersonGettyResults) : List SelectedItem :=
  gettyResults.enum.flatMap fun pair =>
    pair.2.videos.map (mkVideoSelection pair.1 pair.2.person.name)

/-- Source `selectAllPhotosGlobal`: the selections built from every result
row's photo list, in row order. -/
def allPhotoSelections (gettyResults : List PersonGettyResults) : List SelectedItem :=
  gettyResults.enum.flatMap fun pair =>
    pair.2.photos.map (mkPhotoSelection pair.1 pair.2.person.name)

/-- Source `selectAllVideosGlobal`: remove every video selection, then append
all videos of all result rows. -/
def selectAllVideosGlobal (gettyResults : List PersonGettyResults)
    (prev : List SelectedItem) : List SelectedItem :=
  (prev.filter fun item => !(item.mediaType == MediaType.video))
    ++ allVideoSelections gettyResults

/-- Source `selectAllPhotosGlobal`: remove every photo selection, then append
all photos of all result rows. -/
def selectAllPhotosGlobal (gettyResults : List PersonGettyResults)
    (prev : List SelectedItem) : List SelectedItem :=
  (prev.filter fun item => !(item.mediaType == MediaType.photo))
    ++ allPhotoSelections gettyResults

/-- Source `deselectAllVideosGlobal`: keep only non-video selections. -/
def deselectAllVideosGlobal (prev : List SelectedItem) : List SelectedItem :=
  prev.filter fun item => !(item.mediaType == MediaType.video)

/-- Source `deselectAllPhotosGlobal`: keep only non-photo selections. -/
def deselectAllPhotosGlobal (prev : List SelectedItem) : List SelectedItem :=
  prev.filter fun item => !(item.mediaType == MediaType.photo)

/-- Compound identity of a selection: the `(personIndex, mediaId)`
pair the ledger operations key on. -/
def selKey (s : SelectedItem) : Nat × String :=
  (s.personIndex, s.mediaId)

/-- The collection-filter checkbox state (`collections` in the app). -/
structure Collections where
  billboard : Bool
  wwd : Bool
  rollingStone : Bool
  hollywoodReporter : Bool
  variety : Bool
deriving DecidableEq, Repr

/-- Initial collection state: all five toggles checked. -/
def initialCollections : Collections :=
  { billboard := true
    wwd := true
    rollingStone := true
    hollywoodReporter := true
    variety := true }

/-- Source `getActiveCollectionCodes`: comma-join the codes of the active
toggles in object-key order, `null` (`none`) when none is active. -/
def getActiveCollectionCodes (c : Collections) : Option String :=
  let activeCodes :=
    (if c.billboard then ["blb"] else []) ++ (if c.wwd then ["wom"] else [])
      ++ (if c.rollingStone then ["rol"] else [])
      ++ (if c.hollywoodReporter then ["tho"] else [])
      ++ (if c.variety then ["vrt"] else [])
  if activeCodes.length > 0 then some (String.intercalate "," activeCodes) else none

/-- One named rendition URI of a provider record (`display_sizes`
entry with `name` and `uri`). -/
structure Rendition where
  name : String
  uri : String
deriving DecidableEq, Repr

/-- One raw provider record as consumed by the normalizers. -/
structure GettyRecord where
  id : String
  title : String
  display_sizes : List Rendition
  date_created : String
deriving DecidableEq, Repr

/-- A provider response: HTTP success flag and status, the JSON error
payload (forwarded verbatim by the proxy on failure), and the record
list (`data.videos` or `data.images`; an absent array is the empty
list, which the app treats identically). -/
structure ProviderResponse where
  ok : Bool
  status : Nat
  payload : String
  records : List GettyRecord
deriving Repr

/-- The outbound search request the app builds (`URLSearchParams`
plus the endpoint choice `/api/getty-videos` vs `/api/getty-photos`,
recorded here as `kind`). -/
structure GettyRequest where
  kind : MediaType
  phrase : String
  page : String
  page_size : String
  fields : String
  sort_order : String
  collection_codes : Option String
deriving DecidableEq, Repr

/-- JavaScript's `find(...)?.uri || fallback`: the found rendition's
`uri` unless the rendition is absent or its `uri` is the falsy empty
string, in which case the fallback. -/
def jsUriOr (found : Option Rendition) (fallback : String) : String :=
  match found with
  | some rend => if rend.uri = "" then fallback else rend.uri
  | none => fallback

/-- The per-record normalization inside `searchGettyVideos`. -/
def normalizeVideoRecord (video : GettyRecord) : GettyMedia :=
  { id := video.id
    title := video.title
    thumbnailUrl := jsUriOr (video.display_sizes.find? fun size => size.name == "thumb") ""
    previewUrl := jsUriOr (video.display_sizes.find? fun size => size.name == "preview") ""
    compUrl := jsUriOr (video.display_sizes.find? fun size => size.name == "comp")
      (jsUriOr (video.display_sizes.find? fun size => size.name == "preview") "")
    dateCreated := video.date_created }

/-- The per-record normalization inside `searchGettyPhotos` (its body
is textually the same as the video one). -/
def normalizePhotoRecord (photo : GettyRecord) : GettyMedia :=
  { id := photo.id
    title := photo.title
    thumbnailUrl := jsUriOr (photo.display_sizes.find? fun size => size.name == "thumb") ""
    previewUrl := jsUriOr (photo.display_sizes.find? fun size => size.name == "preview") ""
    compUrl := jsUriOr (photo.display_sizes.find? fun size => size.name == "comp")
      (jsUriOr (photo.display_sizes.find? fun size => size.name == "preview") "")
    dateCreated := photo.date_created }

/-- Phrase building shared by both searches: append the literal
`" PMCARC"` when the PMCARC filter is enabled. -/
def buildPhrase (usePMCARC : Bool) (searchTerm : String) : String :=
  if usePMCARC then searchTerm ++ " PMCARC" else searchTerm

/-- The request `searchGettyVideos` sends for a given search term. -/
def videoRequest (usePMCARC : Bool) (collections : Collections)
    (searchTerm : String) : GettyRequest :=
  { kind := MediaType.video
    phrase := buildPhrase usePMCARC searchTerm
    page := "1"
    page_size := "30"
    fields := "id,title,thumb,preview,comp,date_created"
    sort_order := "most_popular"
    collection_codes := getActiveCollectionCodes collections }

/-- The request `searchGettyPhotos` sends for a given search term. -/
def photoRequest (usePMCARC : Bool) (collections : Collections)
    (searchTerm : String) : GettyRequest :=
  { kind := MediaType.photo
    phrase := buildPhrase usePMCARC searchTerm
    page := "1"
    page_size := "30"
    fields := "id,title,thumb,preview,comp,date_created"
    sort_order := "most_popular"
    collection_codes := getActiveCollectionCodes collections }

/-- Source `searchGettyVideos`: issue the video request; throw on a non-ok
response (message carries the status), return `[]` on an empty or
absent record list, else normalize the first five records. -/
def searchGettyVideos (usePMCARC : Bool) (collections : Collections)
    (provider : GettyRequest → ProviderResponse) (searchTerm : String) :
    Except String (List GettyMedia) :=
  let resp := provider (videoRequest usePMCARC collections searchTerm)
  if !resp.ok then
    Except.error ("Getty video search failed: " ++ toString resp.status)
  else if resp.records.isEmpty then
    Except.ok []
  else
    Except.ok ((resp.records.take 5).map normalizeVideoRecord)

/-- Source `searchGettyPhotos`: same shape as the video search on the photo
endpoint. -/
def searchGettyPhotos (usePMCARC : Bool) (collections : Collections)
    (provider : GettyRequest → ProviderResponse) (searchTerm : String) :
    Except String (List GettyMedia) :=
  let resp := provider (photoRequest usePMCARC collections searchTerm)
  if !resp.ok then
    Except.error ("Getty photo search failed: " ++ toString resp.status)
  else if resp.records.isEmpty then
    Except.ok []
  else
    Except.ok ((resp.records.take 5).map normalizePhotoRecord)

/-- The sequential per-person loop of `handleSearchGetty`: for each
person, search videos then photos using only `person.name`, pushing
one result row per person; the first thrown error aborts the loop
(the fixed rate-limit delay has no observable effect here). -/
def searchAll (usePMCARC : Bool) (collections : Collections)
    (provider : GettyRequest → ProviderResponse) :
    List Person → Except String (List PersonGettyResults)
  | [] => Except.ok []
  | person :: rest => do
    let videos ← searchGettyVideos usePMCARC collections provider person.name
    let photos ← searchGettyPhotos usePMCARC collections provider person.name
    let tail ← searchAll usePMCARC collections provider rest
    Except.ok ({ person := person, videos := videos, photos := photos } :: tail)

/-- The app component's state hooks relevant to the orchestration
core, gathered into one record. -/
structure AppState where
  script : String
  shotlist : List Person
  gettyResults : List PersonGettyResults
  currentStep : Nat
  error : String
  accessToken : Option String
  exportText : String
  selectedItems : List SelectedItem
  collections : Collections
  usePMCARC : Bool
deriving Repr

/-- Source `handleSearchGetty`: bail out when no token is held; otherwise run
the per-person loop, and on success store the results, advance to step
4 and clear the error; on a thrown error only set the error message. -/
def handleSearchGetty (provider : GettyRequest → ProviderResponse)
    (st : AppState) : AppState :=
  match st.accessToken with
  | none => { st with error := "Getty API not initialized" }
  | some _ =>
    match searchAll st.usePMCARC st.collections provider st.shotlist with
    | Except.ok results => { st with gettyResults := results, currentStep := 4, error := "" }
    | Except.error e => { st with error := e }

/-- Source `handleClear`: reset script, shotlist, results, export text, step,
error and selections; the collection toggles, the PMCARC flag and the
access token are not touched. -/
def handleClear (st : AppState) : AppState :=
  { st with
    script := ""
    shotlist := []
    gettyResults := []
    exportText := ""
    currentStep := 1
    error := ""
    selectedItems := [] }

/-- String form of a media kind as interpolated into CSV rows and
folder paths. -/
def mediaTypeStr (kind : MediaType) : String :=
  match kind with
  | MediaType.video => "video"
  | MediaType.photo => "photo"

/-- The fixed CSV header line. -/
def exportHeader : String :=
  "Person Name,Getty File ID,Media Type,Title,Date Created,Download URL\n"

/-- Title quoting in `handleCompileExport`: wrap in double quotes,
doubling internal double quotes. -/
def quoteTitle (title : String) : String :=
  "\"" ++ title.replace "\"" "\"\"" ++ "\""

/-- One iteration of the export loop: look up the selection's result
row by index, then the media by id in the kind's array; produce the
CSV row, or nothing when either lookup misses. `new
Date(...).toLocaleDateString()` is locale-dependent and is modelled by
the `fmtDate` parameter. -/
def exportRow (fmtDate : String → String) (gettyResults : List PersonGettyResults)
    (item : SelectedItem) : Option String :=
  match gettyResults.get? item.personIndex with
  | none => none
  | some result =>
    let media :=
      if item.mediaType == MediaType.video then
        result.videos.find? fun v => v.id == item.mediaId
      else
        result.photos.find? fun p => p.id == item.mediaId
    match media with
    | none => none
    | some m =>
      some (item.personName ++ "," ++ m.id ++ "," ++ mediaTypeStr item.mediaType ++ ","
        ++ quoteTitle m.title ++ "," ++ fmtDate m.dateCreated ++ "," ++ m.compUrl ++ "\n")

/-- The data rows the export loop appends, in ledger order. -/
def compileRows (fmtDate : String → String) (gettyResults : List PersonGettyResults)
    (selectedItems : List SelectedItem) : List String :=
  selectedItems.filterMap (exportRow fmtDate gettyResults)

/-- Source `handleCompileExport`: refuse with the empty-selection error
(`none`) when nothing is selected, else produce the header followed by
one row per resolvable selection. -/
def handleCompileExport (fmtDate : String → String)
    (selectedItems : List SelectedItem)
    (gettyResults : List PersonGettyResults) : Option String :=
  if selectedItems.length = 0 then none
  else some (exportHeader ++ String.join (compileRows fmtDate gettyResults selectedItems))

/-- Folder segment for a kind: `${item.mediaType}s`. -/
def mediaTypePlural (kind : MediaType) : String :=
  mediaTypeStr kind ++ "s"

/-- Key insertion into the `groupedByPerson` object: JavaScript object
keys keep first-occurrence insertion order. -/
def insertPersonKey (acc : List String) (personName : String) : List String :=
  if personName ∈ acc then acc else acc ++ [personName]

/-- The person-name keys of `groupedByPerson`, in insertion order. -/
def personKeys (selectedItems : List SelectedItem) : List String :=
  selectedItems.foldl (fun acc item => insertPersonKey acc item.personName) []

/-- One `zip.file` insertion attempt: fetch the item's `compUrl`; on
failure the item is logged and skipped, on success the blob is filed
under `personName/kindPlural/fileName`. -/
def zipEntry (fetchFn : String → Option String) (personName : String)
    (item : SelectedItem) : Option (String × String) :=
  match fetchFn item.compUrl with
  | none => none
  | some blob =>
    some (personName ++ "/" ++ mediaTypePlural item.mediaType ++ "/" ++ item.fileName, blob)

/-- Outcome of `downloadSelectedAsZip`: the early-return alert on an
empty selection, or the finished archive (the sequence of `zip.file`
insertions, path and content). -/
inductive ZipOutcome where
  | noItems
  | archive (entries : List (String × String))
deriving DecidableEq, Repr

/-- Source `downloadSelectedAsZip`: alert and stop when nothing is selected;
otherwise group selections by person name and, per group in insertion
order, attempt each item's fetch, filing successful fetches and
skipping failures; the archive is then finalized unconditionally. -/
def downloadSelectedAsZip (fetchFn : String → Option String)
    (selectedItems : List SelectedItem) : ZipOutcome :=
  if selectedItems.length = 0 then ZipOutcome.noItems
  else
    ZipOutcome.archive <|
      (personKeys selectedItems).flatMap fun personName =>
        (selectedItems.filter fun item => item.personName == personName).filterMap
          (zipEntry fetchFn personName)

/-- The ledger-mutating user actions the UI can trigger. The toggle
carries the checkbox's arguments; the per-person and global bulk
actions read their item lists from the stored result rows, as the
buttons do. -/
inductive LedgerOp where
  | toggle (personIndex : Nat) (personName : String) (media : GettyMedia) (kind : MediaType)
  | selectVideos (personIndex : Nat)
  | selectPhotos (personIndex : Nat)
  | deselectVideos (personIndex : Nat)
  | deselectPhotos (personIndex : Nat)
  | selectVideosGlobal
  | selectPhotosGlobal
  | deselectVideosGlobal
  | deselectPhotosGlobal
deriving DecidableEq, Repr

/-- Dispatch one ledger action against the stored result rows. The
per-person bulk buttons only exist for a rendered result row, so an
out-of-range index leaves the ledger unchanged. -/
def applyOp (gettyResults : List PersonGettyResults) (ledger : List SelectedItem) :
    LedgerOp → List SelectedItem
  | LedgerOp.toggle i n m k => toggleSelection i n m k ledger
  | LedgerOp.selectVideos i =>
    match gettyResults.get? i with
    | some result => selectAllVideos i result.person.name result.videos ledger
    | none => ledger
  | LedgerOp.selectPhotos i =>
    match gettyResults.get? i with
    | some result => selectAllPhotos i result.person.name result.photos ledger
    | none => ledger
  | LedgerOp.deselectVideos i => deselectAllVideos i ledger
  | LedgerOp.deselectPhotos i => deselectAllPhotos i ledger
  | LedgerOp.selectVideosGlobal => selectAllVideosGlobal gettyResults ledger
  | LedgerOp.selectPhotosGlobal => selectAllPhotosGlobal gettyResults ledger
  | LedgerOp.deselectVideosGlobal => deselectAllVideosGlobal ledger
  | LedgerOp.deselectPhotosGlobal => deselectAllPhotosGlobal ledger

/-- Run a sequence of ledger actions from a starting ledger. -/
def applyOps (gettyResults : List PersonGettyResults) (ops : List LedgerOp)
    (ledger : List SelectedItem) : List SelectedItem :=
  ops.foldl (applyOp gettyResults) ledger

/-- A toggle is a UI action only for a media occurring in the
clicked row's array of the clicked kind; the bulk actions carry no
media of their own. -/
def ValidOp (gettyResults : List PersonGettyResults) : LedgerOp → Prop
  | LedgerOp.toggle i _ m k =>
    ∃ result, gettyResults.get? i = some result
      ∧ m ∈ (match k with
        | MediaType.video => result.videos
        | MediaType.photo => result.photos)
  | _ => True

/-- The ids appearing in one kind's array of a result row. -/
def kindIds (result : PersonGettyResults) (kind : MediaType) : List String :=
  match kind with
  | MediaType.video => result.videos.map GettyMedia.id
  | MediaType.photo => result.photos.map GettyMedia.id

/-- Result rows whose id sets are clean: within each row, the video
ids are pairwise distinct, the photo ids are pairwise distinct, and no
id occurs under both kinds. -/
def WellFormedResults (gettyResults : List PersonGettyResults) : Prop :=
  ∀ result ∈ gettyResults,
    (result.videos.map GettyMedia.id).Nodup ∧
    (result.photos.map GettyMedia.id).Nodup ∧
    ∀ x ∈ result.videos.map GettyMedia.id, x ∉ result.photos.map GettyMedia.id

/-- Every ledger entry points into the stored result rows: its index
names a row and its id occurs in that row's array of the entry's
kind. -/
def Consistent (gettyResults : List PersonGettyResults) (ledger : List SelectedItem) : Prop :=
  ∀ s ∈ ledger, ∃ result, gettyResults.get? s.personIndex = some result ∧
    s.mediaId ∈ kindIds result s.mediaType

/-- The ledger invariant claimed by the spec: at most one selection
per `(personIndex, mediaId)` pair. -/
def KeysNodup (ledger : List SelectedItem) : Prop :=
  (ledger.map selKey).Nodup

/-- C10: `handleClear` clears the script, entity list, result sets,
export text, selection ledger and error, returns the step to 1, and
leaves the collection toggles, the PMCARC flag and the access token
unchanged. -/
theorem handleClear_resets_workflow_keeps_filters (st : AppState) :
    (handleClear st).script = "" ∧ (handleClear st).shotlist = []
      ∧ (handleClear st).gettyResults = [] ∧ (handleClear st).exportText = ""
      ∧ (handleClear st).selectedItems = [] ∧ (handleClear st).error = ""
      ∧ (handleClear st).currentStep = 1
      ∧ (handleClear st).collections = st.collections
      ∧ (handleClear st).usePMCARC = st.usePMCARC
      ∧ (handleClear st).accessToken = st.accessToken := by
  refine ⟨rfl, rfl, rfl, rfl, rfl, rfl, rfl, rfl, rfl, rfl⟩

/-- After select-all then deselect-all of the videos of person `i`,
the ledger is exactly the previous ledger stripped of that person's
video selections. -/
theorem deselect_after_select_videos (i : Nat) (n : String)
    (items : List GettyMedia) (prev : List SelectedItem) :
    deselectAllVideos i (selectAllVideos i n items prev)
      = prev.filter fun item =>
          !(item.personIndex == i && item.mediaType == MediaType.video) := by
  simp only [deselectAllVideos, selectAllVideos, List.filter_append, List.filter_filter]
  have h1 : ∀ item : SelectedItem,
      (!(item.personIndex == i && item.mediaType == MediaType.video)
        && !(item.personIndex == i && item.mediaType == MediaType.video))
      = !(item.personIndex == i && item.mediaType == MediaType.video) := by
    intro item; exact Bool.and_self _
  have h2 : (items.map (mkVideoSelection i n)).filter
      (fun item => !(item.personIndex == i && item.mediaType == MediaType.video)) = [] := by
    simp [List.filter_map, mkVideoSelection, Function.comp]
  rw [List.filter_congr (fun a _ => h1 a), h2, List.append_nil]

/-- C3: `selectAllVideos` for person `i` followed by
`deselectAllVideos` for person `i` leaves zero video selections for
person `i` and leaves person `i`'s photo selections exactly as they
were before the two calls. -/
theorem select_deselect_videos_frame (i : Nat) (n : String)
    (items : List GettyMedia) (prev : List SelectedItem) :
    ((deselectAllVideos i (selectAllVideos i n items prev)).filter fun s =>
        s.personIndex == i && s.mediaType == MediaType.video) = []
    ∧ ((deselectAllVideos i (selectAllVideos i n items prev)).filter fun s =>
        s.personIndex == i && s.mediaType == MediaType.photo)
      = prev.filter fun s => s.personIndex == i && s.mediaType == MediaType.photo := by
  rw [deselect_after_select_videos]
  constructor
  · rw [List.filter_filter]
    apply List.filter_eq_nil_iff.mpr
    intro a _
    cases hv : a.personIndex == i && a.mediaType == MediaType.video <;> simp [hv]
  · rw [List.filter_filter]
    apply List.filter_congr
    intro a _
    cases hp : a.mediaType == MediaType.photo
    · simp [hp]
    · have : a.mediaType = MediaType.photo := by
        simpa using hp
      simp [this]

/-- Erasing a position and re-appending the erased element permutes
the list. -/
theorem eraseIdx_append_getElem_perm {α : Type} (l : List α) (k : Nat)
    (hk : k < l.length) : List.Perm (l.eraseIdx k ++ [l[k]]) l := by
  conv_rhs => rw [← List.take_append_drop k l, List.drop_eq_getElem_cons hk]
  rw [List.eraseIdx_eq_take_drop_succ, List.append_assoc]
  exact List.Perm.append_left _ (List.perm_append_comm)

/-- Under distinct keys, no element remaining after erasing position
`k` shares position `k`'s key. -/
theorem selKey_ne_of_mem_eraseIdx {l : List SelectedItem} {k : Nat}
    (hk : k < l.length) (hnd : (l.map selKey).Nodup) {x : SelectedItem}
    (hx : x ∈ l.eraseIdx k) : selKey x ≠ selKey l[k] := by
  obtain ⟨i, hi, hik, rfl⟩ := List.mem_eraseIdx_iff_getElem.mp hx
  intro he
  have hil : i < (l.map selKey).length := by simpa
  have hkl : k < (l.map selKey).length := by simpa
  have hmap : (l.map selKey)[i] = (l.map selKey)[k] := by
    simpa [List.getElem_map] using he
  exact hik ((hnd.getElem_inj_iff).mp hmap)

/-- The toggle's lookup predicate holds exactly on the compound key. -/
theorem togglePred_eq_true {i : Nat} {mid : String} {item : SelectedItem} :
    (item.personIndex == i && item.mediaId == mid) = true
      ↔ item.personIndex = i ∧ item.mediaId = mid := by
  simp

/-- C2 (amended): from a ledger with at most one selection per pair in
which any selection for `(i, media.id)` is exactly the selection the
toggle would construct, toggling the same arguments twice returns a
permutation of the prior ledger (and the very same ledger when the
pair was not selected). -/
theorem toggle_twice_perm (i : Nat) (n : String) (m : GettyMedia) (k : MediaType)
    (prev : List SelectedItem) (hnd : (prev.map selKey).Nodup)
    (hcons : ∀ s ∈ prev, s.personIndex = i → s.mediaId = m.id →
      s = mkToggleItem i n m k) :
    List.Perm (toggleSelection i n m k (toggleSelection i n m k prev)) prev := by
  rcases h : prev.findIdx? (fun item => item.personIndex == i && item.mediaId == m.id) with - | j
  · -- the pair was not selected: append then find the appended item
    have hinner : toggleSelection i n m k prev = prev ++ [mkToggleItem i n m k] := by
      rw [toggleSelection, h]
    have hpred : ((mkToggleItem i n m k).personIndex == i
        && (mkToggleItem i n m k).mediaId == m.id) = true := by
      simp [mkToggleItem]
    have hfind : (prev ++ [mkToggleItem i n m k]).findIdx?
        (fun item => item.personIndex == i && item.mediaId == m.id)
        = some prev.length := by
      rw [List.findIdx?_append, h]
      simp [hpred]
    rw [hinner, toggleSelection, hfind]
    show ((prev ++ [mkToggleItem i n m k]).eraseIdx prev.length).Perm prev
    rw [List.eraseIdx_eq_take_drop_succ, List.take_left]
    have hdrop : List.drop (prev.length + 1) (prev ++ [mkToggleItem i n m k]) = [] := by
      apply List.drop_eq_nil_of_le
      simp
    rw [hdrop, List.append_nil]
  · -- the pair was selected: erase it then re-append it
    obtain ⟨hj, hpj, -⟩ := List.findIdx?_eq_some_iff_getElem.mp h
    obtain ⟨hidx, hmid⟩ := togglePred_eq_true.mp hpj
    have hget : prev[j] = mkToggleItem i n m k :=
      hcons prev[j] (List.getElem_mem hj) hidx hmid
    have hinner : toggleSelection i n m k prev = prev.eraseIdx j := by
      rw [toggleSelection, h]
    have hnone : (prev.eraseIdx j).findIdx?
        (fun item => item.personIndex == i && item.mediaId == m.id) = none := by
      apply List.findIdx?_eq_none_iff.mpr
      intro x hx
      rcases hpx : (x.personIndex == i && x.mediaId == m.id) with - | -
      · rfl
      · exfalso
        obtain ⟨hx1, hx2⟩ := togglePred_eq_true.mp hpx
        apply selKey_ne_of_mem_eraseIdx hj hnd hx
        simp [selKey, hx1, hx2, hidx, hmid]
    rw [hinner, toggleSelection, hnone]
    show ((prev.eraseIdx j) ++ [mkToggleItem i n m k]).Perm prev
    rw [← hget]
    exact eraseIdx_append_getElem_perm prev j hj

/-- A concrete media item used by witnesses and counterexamples. -/
def mediaX : GettyMedia :=
  { id := "x", title := "t", thumbnailUrl := "", previewUrl := "", compUrl := "c",
    dateCreated := "d" }

/-- A stale photo selection for the pair `(0, "x")` whose fields
differ from what a video toggle would construct. -/
def stalePhotoSel : SelectedItem :=
  { personIndex := 0, personName := "A", mediaId := "x", mediaType := MediaType.photo,
    compUrl := "pc", fileName := "x.jpg" }

/-- A selection of a different pair `(1, "y")`. -/
def otherSel : SelectedItem :=
  { personIndex := 1, personName := "B", mediaId := "y", mediaType := MediaType.video,
    compUrl := "c2", fileName := "y.mp4" }

/-- C2 fails as stated: toggling `(0, "x")` as a video twice over a
ledger holding a differently-shaped selection for the same pair does
not restore the prior ledger (not even its selection set), and even
with matching fields the prior order is not restored. -/
theorem toggle_twice_counterexample :
    (toggleSelection 0 "B" mediaX MediaType.video
        (toggleSelection 0 "B" mediaX MediaType.video [stalePhotoSel])
        ≠ [stalePhotoSel]
      ∧ ¬ List.Perm
        (toggleSelection 0 "B" mediaX MediaType.video
          (toggleSelection 0 "B" mediaX MediaType.video [stalePhotoSel]))
        [stalePhotoSel])
    ∧ toggleSelection 0 "B" mediaX MediaType.video
        (toggleSelection 0 "B" mediaX MediaType.video
          [mkToggleItem 0 "B" mediaX MediaType.video, otherSel])
        ≠ [mkToggleItem 0 "B" mediaX MediaType.video, otherSel] := by
  decide

/-- A selection resolves, in the claim's words, when its index names a
stored result row and its id is found in that row's array of the
selection's kind. -/
def resolvesB (gettyResults : List PersonGettyResults) (item : SelectedItem) : Bool :=
  match gettyResults.get? item.personIndex with
  | none => false
  | some result => decide (item.mediaId ∈ kindIds result item.mediaType)

/-- The length of a `filterMap` counts the inputs mapped to
`some`. -/
theorem length_filterMap_eq_countP {α β : Type} (f : α → Option β) (l : List α) :
    (l.filterMap f).length = l.countP (fun a => (f a).isSome) := by
  induction l with
  | nil => rfl
  | cons a t ih =>
    rcases hf : f a with - | b
    · rw [List.filterMap_cons_none hf]
      simp [List.countP_cons, hf, ih]
    · rw [List.filterMap_cons_some hf]
      simp [List.countP_cons, hf, ih]

/-- An id lookup by `find?` succeeds exactly when the id occurs in the
array's id list. -/
theorem find?_isSome_eq_decide_mem (mid : String) (arr : List GettyMedia) :
    (arr.find? (fun v => v.id == mid)).isSome = decide (mid ∈ arr.map GettyMedia.id) := by
  rcases hf : arr.find? (fun v => v.id == mid) with - | m
  · have hnm : mid ∉ arr.map GettyMedia.id := by
      rw [List.find?_eq_none] at hf
      intro hmem
      obtain ⟨v, hv, he⟩ := List.mem_map.mp hmem
      exact hf v hv (by simpa using he)
    rw [hf]
    simp [hnm]
  · have hmem : mid ∈ arr.map GettyMedia.id :=
      List.mem_map.mpr ⟨m, List.mem_of_find?_eq_some hf, by simpa using List.find?_some hf⟩
    rw [hf]
    simp [hmem]

/-- The export loop emits a row for a selection exactly when the
selection resolves. -/
theorem exportRow_isSome_eq_resolvesB (fmtDate : String → String)
    (gettyResults : List PersonGettyResults) (item : SelectedItem) :
    (exportRow fmtDate gettyResults item).isSome = resolvesB gettyResults item := by
  rw [exportRow, resolvesB]
  rcases hres : gettyResults.get? item.personIndex with - | result
  · rfl
  · rcases item.mediaType with - | - <;> simp only [kindIds]
    · rw [← find?_isSome_eq_decide_mem item.mediaId result.videos]
      rcases h2 : result.videos.find? (fun v => v.id == item.mediaId) with - | m <;>
        rw [h2] <;> rfl
    · rw [← find?_isSome_eq_decide_mem item.mediaId result.photos]
      rcases h2 : result.photos.find? (fun p => p.id == item.mediaId) with - | m <;>
        rw [h2] <;> rfl

/-- C4: the export compiler signals the empty-selection error exactly
when no selection exists; otherwise it produces the header plus the
compiled rows, and the number of rows equals the number of selections
whose `(kind, id)` resolves in the stored result rows (unresolvable
selections are skipped, never an error). -/
theorem compileExport_error_iff_empty_and_row_count (fmtDate : String → String)
    (selectedItems : List SelectedItem) (gettyResults : List PersonGettyResults) :
    (handleCompileExport fmtDate selectedItems gettyResults = none ↔ selectedItems = [])
    ∧ (compileRows fmtDate gettyResults selectedItems).length
        = selectedItems.countP (resolvesB gettyResults)
    ∧ (selectedItems = [] ∨ handleCompileExport fmtDate selectedItems gettyResults
        = some (exportHeader
            ++ String.join (compileRows fmtDate gettyResults selectedItems))) := by
  refine ⟨?_, ?_, ?_⟩
  · rw [handleCompileExport]
    rcases selectedItems with - | ⟨a, t⟩ <;> simp
  · rw [compileRows, length_filterMap_eq_countP]
    exact List.countP_congr fun a _ => by
      rw [exportRow_isSome_eq_resolvesB fmtDate gettyResults a]
  · rcases h : selectedItems with - | ⟨a, t⟩
    · exact Or.inl rfl
    · exact Or.inr (by rw [handleCompileExport]; simp)

/-- A successful video search returns the normalized first five
records of the provider response. -/
theorem searchGettyVideos_ok (u : Bool) (cfg : Collections)
    (provider : GettyRequest → ProviderResponse) (term : String)
    (h : (provider (videoRequest u cfg term)).ok = true) :
    searchGettyVideos u cfg provider term
      = Except.ok (((provider (videoRequest u cfg term)).records.take 5).map
          normalizeVideoRecord) := by
  rcases hr : (provider (videoRequest u cfg term)).records with - | ⟨a, t⟩ <;>
    simp [searchGettyVideos, h, hr]

/-- A successful photo search returns the normalized first five
records of the provider response. -/
theorem searchGettyPhotos_ok (u : Bool) (cfg : Collections)
    (provider : GettyRequest → ProviderResponse) (term : String)
    (h : (provider (photoRequest u cfg term)).ok = true) :
    searchGettyPhotos u cfg provider term
      = Except.ok (((provider (photoRequest u cfg term)).records.take 5).map
          normalizePhotoRecord) := by
  rcases hr : (provider (photoRequest u cfg term)).records with - | ⟨a, t⟩ <;>
    simp [searchGettyPhotos, h, hr]

/-- A non-ok video response throws, carrying only the status. -/
theorem searchGettyVideos_error (u : Bool) (cfg : Collections)
    (provider : GettyRequest → ProviderResponse) (term : String)
    (h : (provider (videoRequest u cfg term)).ok = false) :
    searchGettyVideos u cfg provider term
      = Except.error ("Getty video search failed: "
          ++ toString (provider (videoRequest u cfg term)).status) := by
  simp [searchGettyVideos, h]

/-- A non-ok photo response throws, carrying only the status. -/
theorem searchGettyPhotos_error (u : Bool) (cfg : Collections)
    (provider : GettyRequest → ProviderResponse) (term : String)
    (h : (provider (photoRequest u cfg term)).ok = false) :
    searchGettyPhotos u cfg provider term
      = Except.error ("Getty photo search failed: "
          ++ toString (provider (photoRequest u cfg term)).status) := by
  simp [searchGettyPhotos, h]

/-- The result row the loop builds for one person when the provider
answers both searches successfully. -/
def okResultRow (u : Bool) (cfg : Collections)
    (provider : GettyRequest → ProviderResponse) (p : Person) : PersonGettyResults :=
  { person := p
    videos := ((provider (videoRequest u cfg p.name)).records.take 5).map
      normalizeVideoRecord
    photos := ((provider (photoRequest u cfg p.name)).records.take 5).map
      normalizePhotoRecord }

/-- When every provider call succeeds, the loop returns one row per
person, in order. -/
theorem searchAll_ok (u : Bool) (cfg : Collections)
    (provider : GettyRequest → ProviderResponse) (persons : List Person)
    (hok : ∀ req, (provider req).ok = true) :
    searchAll u cfg provider persons
      = Except.ok (persons.map (okResultRow u cfg provider)) := by
  induction persons with
  | nil => rfl
  | cons p rest ih =>
    have h1 := searchGettyVideos_ok u cfg provider p.name (hok _)
    have h2 := searchGettyPhotos_ok u cfg provider p.name (hok _)
    simp only [searchAll, h1, h2, ih, List.map_cons]
    rfl

/-- C5: for every non-empty person list, when the provider answers
every request with a success status (possibly with zero records), the
search loop returns exactly one result row per person, in the same
order as the person list. -/
theorem searchAll_one_row_per_person (u : Bool) (cfg : Collections)
    (provider : GettyRequest → ProviderResponse) (persons : List Person)
    (_hne : persons ≠ []) (hok : ∀ req, (provider req).ok = true) :
    ∃ rs, searchAll u cfg provider persons = Except.ok rs
      ∧ rs.map PersonGettyResults.person = persons
      ∧ rs = persons.map (okResultRow u cfg provider) := by
  refine ⟨persons.map (okResultRow u cfg provider), searchAll_ok u cfg provider persons hok,
    ?_, rfl⟩
  rw [List.map_map]
  have hcomp : (PersonGettyResults.person ∘ okResultRow u cfg provider) = id := rfl
  rw [hcomp, List.map_id]

/-- The message the loop throws for a failing person: the video
search runs first, so its failure wins; a photo failure is reached
only after a successful video search. -/
def entitySearchError (u : Bool) (cfg : Collections)
    (provider : GettyRequest → ProviderResponse) (p : Person) : String :=
  match (provider (videoRequest u cfg p.name)).ok with
  | false => "Getty video search failed: "
      ++ toString (provider (videoRequest u cfg p.name)).status
  | true => "Getty photo search failed: "
      ++ toString (provider (photoRequest u cfg p.name)).status

/-- A person whose video or photo search fails makes the loop throw
the matching endpoint-and-status message at the head of the queue. -/
theorem searchAll_cons_error (u : Bool) (cfg : Collections)
    (provider : GettyRequest → ProviderResponse) (p : Person) (rest : List Person)
    (hfail : (provider (videoRequest u cfg p.name)).ok = false
      ∨ (provider (photoRequest u cfg p.name)).ok = false) :
    searchAll u cfg provider (p :: rest)
      = Except.error (entitySearchError u cfg provider p) := by
  rcases hv : (provider (videoRequest u cfg p.name)).ok with - | -
  · have h1 := searchGettyVideos_error u cfg provider p.name hv
    have hmsg : entitySearchError u cfg provider p
        = "Getty video search failed: "
          ++ toString (provider (videoRequest u cfg p.name)).status := by
      rw [entitySearchError, hv]
    simp only [searchAll, h1, hmsg]
    rfl
  · rcases hp : (provider (photoRequest u cfg p.name)).ok with - | -
    · have h1 := searchGettyVideos_ok u cfg provider p.name hv
      have h2 := searchGettyPhotos_error u cfg provider p.name hp
      have hmsg : entitySearchError u cfg provider p
          = "Getty photo search failed: "
            ++ toString (provider (photoRequest u cfg p.name)).status := by
        rw [entitySearchError, hv]
      simp only [searchAll, h1, h2, hmsg]
      rfl
    · rcases hfail with hf | hf
      · rw [hv] at hf
        exact absurd hf (by simp)
      · rw [hp] at hf
        exact absurd hf (by simp)

/-- A failing search (video or photo) in the middle of the queue
aborts the loop with the status-carrying message, for every possible
tail. -/
theorem searchAll_append_error (u : Bool) (cfg : Collections)
    (provider : GettyRequest → ProviderResponse) (pre : List Person) (p : Person)
    (rest : List Person)
    (hpre : ∀ q ∈ pre, (provider (videoRequest u cfg q.name)).ok = true
      ∧ (provider (photoRequest u cfg q.name)).ok = true)
    (hfail : (provider (videoRequest u cfg p.name)).ok = false
      ∨ (provider (photoRequest u cfg p.name)).ok = false) :
    searchAll u cfg provider (pre ++ p :: rest)
      = Except.error (entitySearchError u cfg provider p) := by
  induction pre with
  | nil =>
    rw [List.nil_append]
    exact searchAll_cons_error u cfg provider p rest hfail
  | cons q qre ih =>
    obtain ⟨hv, hp⟩ := hpre q (by simp)
    have ih' := ih fun r hr => hpre r (by simp [hr])
    have h1 := searchGettyVideos_ok u cfg provider q.name hv
    have h2 := searchGettyPhotos_ok u cfg provider q.name hp
    simp only [List.cons_append, searchAll, h1, h2, List.append_eq, ih']
    rfl

/-- C8 (amended): a non-success provider status on some person's
video or photo search surfaces as a thrown `SearchError` carrying the
failing endpoint and the provider's status (but not its payload):
`Getty video search failed: <status>` when the video request fails,
`Getty photo search failed: <status>` when the video request succeeds
and the photo request fails; the state keeps its stored result sets
and step unchanged with only the error message set, and the loop's
outcome ignores every person after the failing one. -/
theorem search_failure_aborts_queue (provider : GettyRequest → ProviderResponse)
    (st : AppState) (t : String) (pre : List Person) (p : Person) (rest : List Person)
    (htok : st.accessToken = some t)
    (hlist : st.shotlist = pre ++ p :: rest)
    (hpre : ∀ q ∈ pre,
      (provider (videoRequest st.usePMCARC st.collections q.name)).ok = true
      ∧ (provider (photoRequest st.usePMCARC st.collections q.name)).ok = true)
    (hfail : (provider (videoRequest st.usePMCARC st.collections p.name)).ok = false
      ∨ (provider (photoRequest st.usePMCARC st.collections p.name)).ok = false) :
    handleSearchGetty provider st
      = { st with error := entitySearchError st.usePMCARC st.collections provider p }
    ∧ (handleSearchGetty provider st).gettyResults = st.gettyResults
    ∧ (handleSearchGetty provider st).currentStep = st.currentStep
    ∧ ∀ rest2, searchAll st.usePMCARC st.collections provider (pre ++ p :: rest2)
        = Except.error (entitySearchError st.usePMCARC st.collections provider p) := by
  have herr := searchAll_append_error st.usePMCARC st.collections provider pre p rest
    hpre hfail
  have hmain : handleSearchGetty provider st
      = { st with error := entitySearchError st.usePMCARC st.collections provider p } := by
    rw [handleSearchGetty, htok, hlist, herr]
  refine ⟨hmain, by rw [hmain], by rw [hmain], fun rest2 => ?_⟩
  exact searchAll_append_error st.usePMCARC st.collections provider pre p rest2 hpre hfail

/-- A provider that always fails with status 403 and the given JSON
payload. -/
def failingProvider (payload : String) : GettyRequest → ProviderResponse :=
  fun _ => { ok := false, status := 403, payload := payload, records := [] }

/-- A concrete person used in search scenarios. -/
def janeDoe : Person :=
  { name := "Jane Doe", searchTerm := "Jane Doe 2025 Grammy Awards" }

/-- C8 fails as stated: two providers failing with the same status but
different payloads produce identical outcomes, so the provider's
payload is not propagated into the surfaced error. -/
theorem search_error_payload_counterexample :
    searchAll true initialCollections (failingProvider "quota exceeded") [janeDoe]
      = searchAll true initialCollections (failingProvider "forbidden") [janeDoe]
    ∧ searchAll true initialCollections (failingProvider "quota exceeded") [janeDoe]
      = Except.error "Getty video search failed: 403"
    ∧ ("quota exceeded" : String) ≠ "forbidden" := by
  refine ⟨rfl, rfl, by decide⟩

/-- Erase the AI-derived search term of a person. -/
def scrubSearchTerm (p : Person) : Person :=
  { p with searchTerm := "" }

/-- Erase the AI-derived search term inside a result row. -/
def scrubRow (r : PersonGettyResults) : PersonGettyResults :=
  { r with person := scrubSearchTerm r.person }

/-- The search loop never reads `searchTerm`: erasing it from every
person changes the outcome only by the persons stored inside the
result rows. -/
theorem searchAll_scrub (u : Bool) (cfg : Collections)
    (provider : GettyRequest → ProviderResponse) (persons : List Person) :
    searchAll u cfg provider (persons.map scrubSearchTerm)
      = Except.map (List.map scrubRow) (searchAll u cfg provider persons) := by
  induction persons with
  | nil => rfl
  | cons p rest ih =>
    simp only [List.map_cons, searchAll]
    have hn1 : searchGettyVideos u cfg provider (scrubSearchTerm p).name
        = searchGettyVideos u cfg provider p.name := rfl
    have hn2 : searchGettyPhotos u cfg provider (scrubSearchTerm p).name
        = searchGettyPhotos u cfg provider p.name := rfl
    rw [hn1, hn2]
    rcases h1 : searchGettyVideos u cfg provider p.name with e | vids
    · rfl
    · rcases h2 : searchGettyPhotos u cfg provider p.name with e | phs
      · rfl
      · simp only [ih]
        rcases h3 : searchAll u cfg provider rest with e | tail
        · rfl
        · rfl

/-- C9: the outbound phrase for a person, both for the video and the
photo search, is the person's name, suffixed with the literal
`" PMCARC"` exactly when phrase augmentation is on; the AI-derived
`searchTerm` is never consulted by the search loop. -/
theorem phrase_uses_name_only (u : Bool) (cfg : Collections)
    (provider : GettyRequest → ProviderResponse) (p : Person) (persons : List Person) :
    (videoRequest u cfg p.name).phrase = (if u then p.name ++ " PMCARC" else p.name)
    ∧ (photoRequest u cfg p.name).phrase = (if u then p.name ++ " PMCARC" else p.name)
    ∧ searchAll u cfg provider (persons.map scrubSearchTerm)
        = Except.map (List.map scrubRow) (searchAll u cfg provider persons) :=
  ⟨rfl, rfl, searchAll_scrub u cfg provider persons⟩

/-- Modelled from the spec: the claim's reading of the thumbnail
field, the uri of the rendition named `thumb`, empty when absent. -/
def specThumbnailUrl (record : GettyRecord) : String :=
  match record.display_sizes.find? (fun size => size.name == "thumb") with
  | some rend => rend.uri
  | none => ""

/-- Modelled from the spec: the claim's reading of the preview field,
the uri of the rendition named `preview`, empty when absent. -/
def specPreviewUrl (record : GettyRecord) : String :=
  match record.display_sizes.find? (fun size => size.name == "preview") with
  | some rend => rend.uri
  | none => ""

/-- Modelled from the spec: the claim's reading of the comp field, the
uri of the rendition named `comp`, falling back to the `preview`
rendition's uri only when no `comp` rendition exists. -/
def specCompUrl (record : GettyRecord) : String :=
  match record.display_sizes.find? (fun size => size.name == "comp") with
  | some rend => rend.uri
  | none => specPreviewUrl record

/-- The comp field as the code computes it: the `comp` rendition's uri
when that rendition exists and its uri is non-empty (JavaScript
falsiness), else the preview fallback. -/
def amendedCompUrl (record : GettyRecord) : String :=
  match record.display_sizes.find? (fun size => size.name == "comp") with
  | some rend => if rend.uri = "" then specPreviewUrl record else rend.uri
  | none => specPreviewUrl record

/-- A record whose `comp` rendition exists with an empty uri next to a
non-empty `preview` rendition. -/
def emptyCompRecord : GettyRecord :=
  { id := "42", title := "T",
    display_sizes := [{ name := "comp", uri := "" }, { name := "preview", uri := "P" }],
    date_created := "2024-01-01" }

/-- C6 fails as stated: on a record with a `comp` rendition of empty
uri, the code takes the `preview` uri `"P"` while the claim's rule
(fall back only when no `comp` rendition exists) yields `""`. -/
theorem comp_fallback_counterexample :
    (normalizeVideoRecord emptyCompRecord).compUrl = "P"
    ∧ specCompUrl emptyCompRecord = ""
    ∧ (normalizeVideoRecord emptyCompRecord).compUrl ≠ specCompUrl emptyCompRecord
    ∧ (normalizePhotoRecord emptyCompRecord).compUrl ≠ specCompUrl emptyCompRecord := by
  refine ⟨rfl, rfl, by decide, by decide⟩

/-- Simplification of the falsy helper at an absent rendition. -/
theorem jsUriOr_none (d : String) : jsUriOr none d = d := rfl

/-- Simplification of the falsy helper at a found rendition. -/
theorem jsUriOr_some (rend : Rendition) (d : String) :
    jsUriOr (some rend) d = if rend.uri = "" then d else rend.uri := rfl

/-- The code's preview field coincides with the claim's rule. -/
theorem previewUrl_eq_spec (r : GettyRecord) :
    (normalizeVideoRecord r).previewUrl = specPreviewUrl r := by
  show jsUriOr (r.display_sizes.find? fun size => size.name == "preview") ""
    = specPreviewUrl r
  rw [specPreviewUrl]
  rcases h : r.display_sizes.find? (fun size => size.name == "preview") with - | rend
  · rw [h]
    rfl
  · rw [h, jsUriOr_some]
    show (if rend.uri = "" then "" else rend.uri) = rend.uri
    split_ifs with he
    · exact he.symm
    · rfl

/-- The code's thumbnail field coincides with the claim's rule. -/
theorem thumbnailUrl_eq_spec (r : GettyRecord) :
    (normalizeVideoRecord r).thumbnailUrl = specThumbnailUrl r := by
  show jsUriOr (r.display_sizes.find? fun size => size.name == "thumb") ""
    = specThumbnailUrl r
  rw [specThumbnailUrl]
  rcases h : r.display_sizes.find? (fun size => size.name == "thumb") with - | rend
  · rw [h]
    rfl
  · rw [h, jsUriOr_some]
    show (if rend.uri = "" then "" else rend.uri) = rend.uri
    split_ifs with he
    · exact he.symm
    · rfl

/-- The code's comp field follows the falsy fallback chain. -/
theorem compUrl_eq_amended (r : GettyRecord) :
    (normalizeVideoRecord r).compUrl = amendedCompUrl r := by
  have hprev : jsUriOr (r.display_sizes.find? fun size => size.name == "preview") ""
      = specPreviewUrl r := previewUrl_eq_spec r
  show jsUriOr (r.display_sizes.find? fun size => size.name == "comp")
      (jsUriOr (r.display_sizes.find? fun size => size.name == "preview") "")
    = amendedCompUrl r
  rw [amendedCompUrl]
  rcases h : r.display_sizes.find? (fun size => size.name == "comp") with - | rend
  · rw [h, jsUriOr_none]
    exact hprev
  · rw [h, jsUriOr_some]
    show (if rend.uri = ""
        then jsUriOr (r.display_sizes.find? fun size => size.name == "preview") ""
        else rend.uri)
      = (if rend.uri = "" then specPreviewUrl r else rend.uri)
    split_ifs with he
    · exact hprev
    · rfl

/-- C6 (amended): a successful search normalizes exactly the first
five provider records in provider order; per record, the thumbnail and
preview fields are the uris of the like-named renditions (empty when
absent), and the comp field is the `comp` rendition's uri, falling
back to the preview rule when the `comp` rendition is absent or its
uri is the empty string; the photo normalizer is the same function. -/
theorem normalization_first_five_and_renditions (u : Bool) (cfg : Collections)
    (provider : GettyRequest → ProviderResponse) (term : String) (r : GettyRecord) :
    ((provider (videoRequest u cfg term)).ok = true →
      searchGettyVideos u cfg provider term
        = Except.ok (((provider (videoRequest u cfg term)).records.take 5).map
            normalizeVideoRecord))
    ∧ ((provider (photoRequest u cfg term)).ok = true →
      searchGettyPhotos u cfg provider term
        = Except.ok (((provider (photoRequest u cfg term)).records.take 5).map
            normalizePhotoRecord))
    ∧ (normalizeVideoRecord r).thumbnailUrl = specThumbnailUrl r
    ∧ (normalizeVideoRecord r).previewUrl = specPreviewUrl r
    ∧ (normalizeVideoRecord r).compUrl = amendedCompUrl r
    ∧ normalizePhotoRecord r = normalizeVideoRecord r :=
  ⟨searchGettyVideos_ok u cfg provider term,
   searchGettyPhotos_ok u cfg provider term,
   thumbnailUrl_eq_spec r, previewUrl_eq_spec r, compUrl_eq_amended r, rfl⟩

/-- A provider answering success with one fixed record. -/
def sampleProvider : GettyRequest → ProviderResponse :=
  fun _ => { ok := true, status := 200, payload := "", records := [emptyCompRecord] }

/-- Witness for the amended C6 theorem at a concrete provider and
record. -/
theorem normalization_first_five_witness :
    searchGettyVideos true initialCollections sampleProvider "Jane Doe"
      = Except.ok (((sampleProvider
          (videoRequest true initialCollections "Jane Doe")).records.take 5).map
            normalizeVideoRecord)
    ∧ (normalizeVideoRecord emptyCompRecord).compUrl = amendedCompUrl emptyCompRecord :=
  ⟨(normalization_first_five_and_renditions true initialCollections sampleProvider
      "Jane Doe" emptyCompRecord).1 rfl,
   (normalization_first_five_and_renditions true initialCollections sampleProvider
      "Jane Doe" emptyCompRecord).2.2.2.2.1⟩

/-- Membership after inserting a key into the grouping object. -/
theorem mem_insertPersonKey (acc : List String) (m n : String) :
    n ∈ insertPersonKey acc m ↔ n ∈ acc ∨ n = m := by
  rw [insertPersonKey]
  split_ifs with hm
  · constructor
    · exact Or.inl
    · rintro (h | rfl)
      · exact h
      · exact hm
  · simp

/-- Inserting keys preserves distinctness. -/
theorem nodup_insertPersonKey (acc : List String) (m : String) (h : acc.Nodup) :
    (insertPersonKey acc m).Nodup := by
  rw [insertPersonKey]
  split_ifs with hm
  · exact h
  · rw [List.nodup_append]
    refine ⟨h, List.nodup_singleton m, ?_⟩
    intro x hx hx'
    exact hm ((List.mem_singleton.mp hx') ▸ hx)

/-- The grouping fold yields distinct keys. -/
theorem foldl_insertPersonKey_nodup (sel : List SelectedItem) (acc : List String)
    (h : acc.Nodup) :
    (sel.foldl (fun a it => insertPersonKey a it.personName) acc).Nodup := by
  induction sel generalizing acc with
  | nil => exact h
  | cons it rest ih =>
    rw [List.foldl_cons]
    exact ih (insertPersonKey acc it.personName)
      (nodup_insertPersonKey acc it.personName h)

/-- Membership in the grouping fold. -/
theorem mem_foldl_insertPersonKey (sel : List SelectedItem) (acc : List String)
    (n : String) :
    n ∈ sel.foldl (fun a it => insertPersonKey a it.personName) acc
      ↔ n ∈ acc ∨ ∃ it ∈ sel, it.personName = n := by
  induction sel generalizing acc with
  | nil => simp
  | cons it rest ih =>
    rw [List.foldl_cons, ih, mem_insertPersonKey]
    constructor
    · rintro ((h | rfl) | ⟨x, hx, rfl⟩)
      · exact Or.inl h
      · exact Or.inr ⟨it, by simp⟩
      · exact Or.inr ⟨x, by simp [hx]⟩
    · rintro (h | ⟨x, hx, rfl⟩)
      · exact Or.inl (Or.inl h)
      · rcases List.mem_cons.mp hx with rfl | hx'
        · exact Or.inl (Or.inr rfl)
        · exact Or.inr ⟨x, hx', rfl⟩

/-- The person keys of a ledger are distinct. -/
theorem personKeys_nodup (sel : List SelectedItem) : (personKeys sel).Nodup :=
  foldl_insertPersonKey_nodup sel [] List.nodup_nil

/-- Every selection's person name occurs among the person keys. -/
theorem personName_mem_personKeys {sel : List SelectedItem} {it : SelectedItem}
    (h : it ∈ sel) : it.personName ∈ personKeys sel :=
  (mem_foldl_insertPersonKey sel [] it.personName).mpr (Or.inr ⟨it, h, rfl⟩)

/-- Concatenating the per-key filtered groups permutes the original
list, for any distinct and exhaustive key list. -/
theorem flatMap_filter_perm (keys : List String) (sel : List SelectedItem)
    (hnd : keys.Nodup) (hmem : ∀ it ∈ sel, it.personName ∈ keys) :
    List.Perm (keys.flatMap fun k => sel.filter fun it => it.personName == k) sel := by
  induction keys generalizing sel with
  | nil =>
    cases sel with
    | nil => exact List.Perm.refl []
    | cons a t => exact absurd (hmem a (by simp)) (List.not_mem_nil _)
  | cons k ks ih =>
    rw [List.flatMap_cons]
    obtain ⟨hk, hks⟩ := List.nodup_cons.mp hnd
    have hinner : ∀ j ∈ ks, (sel.filter fun it => it.personName == j)
        = ((sel.filter fun it => !(it.personName == k)).filter
            fun it => it.personName == j) := by
      intro j hj
      rw [List.filter_filter]
      apply List.filter_congr
      intro a _
      rcases ha : a.personName == j with - | -
      · simp
      · have haj : a.personName = j := by simpa using ha
        have hjk : (a.personName == k) = false := by
          simp only [beq_eq_false_iff_ne, ne_eq, haj]
          intro he
          exact hk (he ▸ hj)
        simp [hjk]
    have hcongr : (ks.flatMap fun j => sel.filter fun it => it.personName == j)
        = ks.flatMap fun j =>
            (sel.filter fun it => !(it.personName == k)).filter
              fun it => it.personName == j := by
      rw [List.flatMap, List.flatMap, List.map_congr_left hinner]
    have hmem' : ∀ it ∈ sel.filter fun it => !(it.personName == k),
        it.personName ∈ ks := by
      intro it hit
      obtain ⟨hsel, hne⟩ := List.mem_filter.mp hit
      rcases List.mem_cons.mp (hmem it hsel) with he | h
      · rw [he] at hne
        simp at hne
      · exact h
    have htail := ih (sel.filter fun it => !(it.personName == k)) hks hmem'
    rw [hcongr]
    exact List.Perm.trans (List.Perm.append_left _ htail)
      (List.filter_append_perm (fun it => it.personName == k) sel)

/-- Filtering-and-mapping distributes over a flat map. -/
theorem filterMap_flatMap {α β γ : Type} (l : List α) (F : α → List β)
    (g : β → Option γ) :
    (l.flatMap F).filterMap g = l.flatMap fun a => (F a).filterMap g := by
  induction l with
  | nil => rfl
  | cons a t ih => rw [List.flatMap_cons, List.flatMap_cons, List.filterMap_append, ih]

/-- The grouped archive insertions are a permutation of the ungrouped
per-item insertion attempts. -/
theorem zip_entries_perm (fetchFn : String → Option String) (sel : List SelectedItem) :
    List.Perm
      ((personKeys sel).flatMap fun personName =>
        (sel.filter fun item => item.personName == personName).filterMap
          (zipEntry fetchFn personName))
      (sel.filterMap fun item => zipEntry fetchFn item.personName item) := by
  have hinner : ∀ k, (sel.filter fun it => it.personName == k).filterMap
        (zipEntry fetchFn k)
      = (sel.filter fun it => it.personName == k).filterMap
        (fun it => zipEntry fetchFn it.personName it) := by
    intro k
    apply List.filterMap_congr
    intro a ha
    obtain ⟨-, hk⟩ := List.mem_filter.mp ha
    have : a.personName = k := by simpa using hk
    rw [this]
  have hflat : ((personKeys sel).flatMap fun k =>
        (sel.filter fun it => it.personName == k).filterMap (zipEntry fetchFn k))
      = ((personKeys sel).flatMap fun k =>
          sel.filter fun it => it.personName == k).filterMap
        (fun it => zipEntry fetchFn it.personName it) := by
    rw [filterMap_flatMap]
    rw [List.flatMap, List.flatMap, List.map_congr_left fun k _ => hinner k]
  rw [hflat]
  exact List.Perm.filterMap _
    (flatMap_filter_perm (personKeys sel) sel (personKeys_nodup sel)
      fun it hit => personName_mem_personKeys hit)

/-- A fetch function that fails for every url. -/
def failFetch : String → Option String := fun _ => none

/-- C7 fails as stated: with a single selected item whose fetch fails,
packaging completes with an archive of zero items instead of failing;
no `PackagingError` exists on this path. -/
theorem zip_empty_archive_counterexample :
    downloadSelectedAsZip failFetch [stalePhotoSel] = ZipOutcome.archive []
    ∧ ([stalePhotoSel] : List SelectedItem) ≠ [] := by
  exact ⟨rfl, by decide⟩

/-- C7 (amended): packaging refuses (alert, nothing downloaded)
exactly when invoked with zero selections; otherwise it always
finishes with an archive holding exactly the items whose fetch
succeeded, each filed under its person/kind path — a failed fetch only
drops its own item, and an archive of zero items is still produced
without an error. -/
theorem zip_partial_success (fetchFn : String → Option String)
    (selectedItems : List SelectedItem) :
    (downloadSelectedAsZip fetchFn selectedItems = ZipOutcome.noItems
      ↔ selectedItems = [])
    ∧ (selectedItems = [] ∨ ∃ entries,
        downloadSelectedAsZip fetchFn selectedItems = ZipOutcome.archive entries
        ∧ List.Perm entries (selectedItems.filterMap
            fun item => zipEntry fetchFn item.personName item)) := by
  constructor
  · rw [downloadSelectedAsZip]
    rcases selectedItems with - | ⟨a, t⟩ <;> simp
  · rcases h : selectedItems with - | ⟨a, t⟩
    · exact Or.inl rfl
    · refine Or.inr ⟨(personKeys (a :: t)).flatMap fun personName =>
        ((a :: t).filter fun item => item.personName == personName).filterMap
          (zipEntry fetchFn personName), ?_, zip_entries_perm fetchFn (a :: t)⟩
      rw [downloadSelectedAsZip]
      simp

/-- A provider answering success with zero records for every
request. -/
def okEmptyProvider : GettyRequest → ProviderResponse :=
  fun _ => { ok := true, status := 200, payload := "", records := [] }

/-- Witness for C5 at a one-person list and a provider returning zero
records: one row, empty media arrays, no error. -/
theorem searchAll_one_row_per_person_witness :
    ∃ rs, searchAll true initialCollections okEmptyProvider [janeDoe] = Except.ok rs
      ∧ rs.map PersonGettyResults.person = [janeDoe]
      ∧ rs = [janeDoe].map (okResultRow true initialCollections okEmptyProvider) :=
  searchAll_one_row_per_person true initialCollections okEmptyProvider [janeDoe]
    (List.cons_ne_nil janeDoe []) (fun _ => rfl)

/-- The app state just before a failing search, with a held token and
one person in the shotlist. -/
def failState : AppState :=
  { script := "s"
    shotlist := [janeDoe]
    gettyResults := []
    currentStep := 3
    error := ""
    accessToken := some "tok"
    exportText := ""
    selectedItems := []
    collections := initialCollections
    usePMCARC := true }

/-- A provider answering the video endpoint successfully but failing
the photo endpoint with status 500. -/
def photoFailProvider : GettyRequest → ProviderResponse :=
  fun req =>
    match req.kind with
    | MediaType.video => { ok := true, status := 200, payload := "", records := [] }
    | MediaType.photo => { ok := false, status := 500, payload := "p", records := [] }

/-- Witness for the amended C8 theorem at a provider whose photo
search fails after a successful video search. -/
theorem search_failure_aborts_queue_witness :
    handleSearchGetty photoFailProvider failState
      = { failState with error := "Getty photo search failed: 500" }
    ∧ (handleSearchGetty photoFailProvider failState).gettyResults
        = failState.gettyResults
    ∧ (handleSearchGetty photoFailProvider failState).currentStep
        = failState.currentStep
    ∧ ∀ rest2, searchAll failState.usePMCARC failState.collections
        photoFailProvider ([] ++ janeDoe :: rest2)
        = Except.error "Getty photo search failed: 500" :=
  search_failure_aborts_queue photoFailProvider failState "tok" [] janeDoe []
    rfl rfl (fun q hq => absurd hq (List.not_mem_nil q)) (Or.inr rfl)

/-- Witness for the amended C2 theorem at a concrete ledger. -/
theorem toggle_twice_perm_witness :
    List.Perm
      (toggleSelection 0 "B" mediaX MediaType.video
        (toggleSelection 0 "B" mediaX MediaType.video
          [mkToggleItem 0 "B" mediaX MediaType.video, otherSel]))
      [mkToggleItem 0 "B" mediaX MediaType.video, otherSel] :=
  toggle_twice_perm 0 "B" mediaX MediaType.video
    [mkToggleItem 0 "B" mediaX MediaType.video, otherSel]
    (by decide) (by decide)

/-- The combined invariant carried through every ledger operation:
distinct compound keys, and every entry points into the stored result
rows. -/
def LedgerInv (gettyResults : List PersonGettyResults)
    (ledger : List SelectedItem) : Prop :=
  KeysNodup ledger ∧ Consistent gettyResults ledger

/-- Distinct keys survive dropping entries and appending entries with
fresh, internally distinct keys. -/
theorem keysNodup_filter_append (l new : List SelectedItem) (p : SelectedItem → Bool)
    (h1 : KeysNodup l) (h2 : (new.map selKey).Nodup)
    (h3 : ∀ a ∈ l.filter p, ∀ b ∈ new, selKey a ≠ selKey b) :
    KeysNodup (l.filter p ++ new) := by
  rw [KeysNodup, List.map_append, List.nodup_append]
  refine ⟨((List.filter_sublist l).map selKey).nodup h1, h2, ?_⟩
  intro x hx hx'
  obtain ⟨a, ha, rfl⟩ := List.mem_map.mp hx
  obtain ⟨b, hb, he⟩ := List.mem_map.mp hx'
  exact h3 a ha b hb he.symm

/-- A pair listed by `enum` recovers its element by `get?`. -/
theorem get?_of_mem_enum {α : Type} {pair : Nat × α} {R : List α}
    (h : pair ∈ R.enum) : R.get? pair.1 = some pair.2 := by
  obtain ⟨pi, pr⟩ := pair
  obtain ⟨-, hlt, heq⟩ := List.mem_enumFrom h
  have hlt' : pi < R.length := by simpa using hlt
  rw [List.get?_eq_getElem?, List.getElem?_eq_getElem hlt']
  simp only [Nat.sub_zero] at heq
  rw [heq]

/-- Keys built from an enumerated row list are distinct: the offset
separates blocks, and each block's ids are distinct. -/
theorem nodup_flatMap_enumFrom_keys (g : PersonGettyResults → List String)
    (R : List PersonGettyResults) (off : Nat)
    (h : ∀ r ∈ R, (g r).Nodup) :
    ((List.enumFrom off R).flatMap fun pair => (g pair.2).map (Prod.mk pair.1)).Nodup := by
  induction R generalizing off with
  | nil => simp
  | cons r rest ih =>
    rw [List.enumFrom_cons, List.flatMap_cons, List.nodup_append]
    refine ⟨(h r (by simp)).map (fun a b hab => by simpa using hab),
      ih (off + 1) (fun r' hr' => h r' (by simp [hr'])), ?_⟩
    intro x hx hx'
    obtain ⟨id1, -, rfl⟩ := List.mem_map.mp hx
    obtain ⟨pair, hpair, hmem⟩ := List.mem_flatMap.mp hx'
    obtain ⟨pi, pr⟩ := pair
    obtain ⟨id2, -, heq⟩ := List.mem_map.mp hmem
    have hle : off + 1 ≤ pi := (List.mem_enumFrom hpair).1
    have : pi = off := by
      have := heq
      simp only [Prod.mk.injEq] at this
      exact this.1
    omega

/-- The compound keys of the global video selections, block by
block. -/
theorem map_selKey_allVideoSelections (R : List PersonGettyResults) :
    (allVideoSelections R).map selKey
      = (List.enumFrom 0 R).flatMap fun pair =>
          (pair.2.videos.map GettyMedia.id).map (Prod.mk pair.1) := by
  rw [allVideoSelections, List.map_flatMap]
  apply List.flatMap_congr
  intro pair _
  rw [List.map_map, List.map_map]
  rfl

/-- The compound keys of the global photo selections, block by
block. -/
theorem map_selKey_allPhotoSelections (R : List PersonGettyResults) :
    (allPhotoSelections R).map selKey
      = (List.enumFrom 0 R).flatMap fun pair =>
          (pair.2.photos.map GettyMedia.id).map (Prod.mk pair.1) := by
  rw [allPhotoSelections, List.map_flatMap]
  apply List.flatMap_congr
  intro pair _
  rw [List.map_map, List.map_map]
  rfl

/-- Any filtering of the ledger keeps the invariant. -/
theorem inv_filter (R : List PersonGettyResults) (l : List SelectedItem)
    (p : SelectedItem → Bool) (hinv : LedgerInv R l) : LedgerInv R (l.filter p) :=
  ⟨((List.filter_sublist l).map selKey).nodup hinv.1,
    fun s hs => hinv.2 s (List.mem_filter.mp hs).1⟩

/-- A valid toggle keeps the invariant. -/
theorem inv_toggle (R : List PersonGettyResults) (i : Nat) (n : String)
    (m : GettyMedia) (k : MediaType) (l : List SelectedItem)
    (hv : ValidOp R (LedgerOp.toggle i n m k)) (hinv : LedgerInv R l) :
    LedgerInv R (toggleSelection i n m k l) := by
  obtain ⟨result, hr, hm⟩ := hv
  rcases h : l.findIdx? (fun item => item.personIndex == i && item.mediaId == m.id) with - | j
  · have hl : toggleSelection i n m k l = l ++ [mkToggleItem i n m k] := by
      rw [toggleSelection, h]
    rw [hl]
    constructor
    · rw [KeysNodup, List.map_append, List.nodup_append]
      refine ⟨hinv.1, by simp, ?_⟩
      intro x hx hx'
      obtain ⟨a, ha, rfl⟩ := List.mem_map.mp hx
      have hxk : selKey a = selKey (mkToggleItem i n m k) := by simpa using hx'
      have hcomp : a.personIndex = i ∧ a.mediaId = m.id := by
        simpa [selKey, mkToggleItem, Prod.mk.injEq] using hxk
      have hpred := List.findIdx?_eq_none_iff.mp h a ha
      rw [hcomp.1, hcomp.2] at hpred
      simp at hpred
    · intro s hs
      rcases List.mem_append.mp hs with hs | hs
      · exact hinv.2 s hs
      · have hse : s = mkToggleItem i n m k := by simpa using hs
        subst hse
        refine ⟨result, hr, ?_⟩
        show m.id ∈ kindIds result k
        rcases k with - | -
        · exact List.mem_map.mpr ⟨m, hm, rfl⟩
        · exact List.mem_map.mpr ⟨m, hm, rfl⟩
  · have hl : toggleSelection i n m k l = l.eraseIdx j := by
      rw [toggleSelection, h]
    rw [hl]
    exact ⟨((List.eraseIdx_sublist l j).map selKey).nodup hinv.1,
      fun s hs => hinv.2 s ((List.eraseIdx_sublist l j).subset hs)⟩

/-- A per-person select-all of videos keeps the invariant when the
row's id sets are clean. -/
theorem inv_selectAllVideos (R : List PersonGettyResults) (i : Nat)
    (result : PersonGettyResults) (l : List SelectedItem)
    (hwf : WellFormedResults R) (hr : R.get? i = some result)
    (hinv : LedgerInv R l) :
    LedgerInv R (selectAllVideos i result.person.name result.videos l) := by
  obtain ⟨hvn, hpn, hdisj⟩ := hwf result (List.get?_mem hr)
  rw [selectAllVideos]
  constructor
  · apply keysNodup_filter_append _ _ _ hinv.1
    · rw [List.map_map]
      have hco : (selKey ∘ mkVideoSelection i result.person.name)
          = (Prod.mk i ∘ GettyMedia.id) := rfl
      rw [hco, ← List.map_map]
      exact hvn.map fun a b hab => by simpa using hab
    · intro a ha b hb hk
      obtain ⟨v, hv', rfl⟩ := List.mem_map.mp hb
      obtain ⟨ha_mem, ha_pred⟩ := List.mem_filter.mp ha
      have hcomp : a.personIndex = i ∧ a.mediaId = v.id := by
        simpa [selKey, mkVideoSelection, Prod.mk.injEq] using hk
      have hphoto : a.mediaType = MediaType.photo := by
        rcases hat : a.mediaType with - | -
        · rw [hcomp.1, hat] at ha_pred
          simp at ha_pred
        · rfl
      obtain ⟨result', hr', hmem'⟩ := hinv.2 a ha_mem
      rw [hcomp.1, hr] at hr'
      have hres : result' = result := (Option.some_inj.mp hr').symm
      rw [hres, hphoto] at hmem'
      have hvid : v.id ∈ result.videos.map GettyMedia.id := List.mem_map.mpr ⟨v, hv', rfl⟩
      have hpid : a.mediaId ∈ result.photos.map GettyMedia.id := hmem'
      rw [hcomp.2] at hpid
      exact hdisj v.id hvid hpid
  · intro s hs
    rcases List.mem_append.mp hs with hs | hs
    · exact hinv.2 s (List.mem_filter.mp hs).1
    · obtain ⟨v, hv', rfl⟩ := List.mem_map.mp hs
      exact ⟨result, hr, List.mem_map.mpr ⟨v, hv', rfl⟩⟩

/-- A per-person select-all of photos keeps the invariant when the
row's id sets are clean. -/
theorem inv_selectAllPhotos (R : List PersonGettyResults) (i : Nat)
    (result : PersonGettyResults) (l : List SelectedItem)
    (hwf : WellFormedResults R) (hr : R.get? i = some result)
    (hinv : LedgerInv R l) :
    LedgerInv R (selectAllPhotos i result.person.name result.photos l) := by
  obtain ⟨hvn, hpn, hdisj⟩ := hwf result (List.get?_mem hr)
  rw [selectAllPhotos]
  constructor
  · apply keysNodup_filter_append _ _ _ hinv.1
    · rw [List.map_map]
      have hco : (selKey ∘ mkPhotoSelection i result.person.name)
          = (Prod.mk i ∘ GettyMedia.id) := rfl
      rw [hco, ← List.map_map]
      exact hpn.map fun a b hab => by simpa using hab
    · intro a ha b hb hk
      obtain ⟨v, hv', rfl⟩ := List.mem_map.mp hb
      obtain ⟨ha_mem, ha_pred⟩ := List.mem_filter.mp ha
      have hcomp : a.personIndex = i ∧ a.mediaId = v.id := by
        simpa [selKey, mkPhotoSelection, Prod.mk.injEq] using hk
      have hvideo : a.mediaType = MediaType.video := by
        rcases hat : a.mediaType with - | -
        · rfl
        · rw [hcomp.1, hat] at ha_pred
          simp at ha_pred
      obtain ⟨result', hr', hmem'⟩ := hinv.2 a ha_mem
      rw [hcomp.1, hr] at hr'
      have hres : result' = result := (Option.some_inj.mp hr').symm
      rw [hres, hvideo] at hmem'
      have hvid : a.mediaId ∈ result.videos.map GettyMedia.id := hmem'
      have hpid : v.id ∈ result.photos.map GettyMedia.id := List.mem_map.mpr ⟨v, hv', rfl⟩
      rw [hcomp.2] at hvid
      exact hdisj v.id hvid hpid
  · intro s hs
    rcases List.mem_append.mp hs with hs | hs
    · exact hinv.2 s (List.mem_filter.mp hs).1
    · obtain ⟨v, hv', rfl⟩ := List.mem_map.mp hs
      exact ⟨result, hr, List.mem_map.mpr ⟨v, hv', rfl⟩⟩

/-- The global select-all of videos keeps the invariant when every
row's id sets are clean. -/
theorem inv_selectVideosGlobal (R : List PersonGettyResults) (l : List SelectedItem)
    (hwf : WellFormedResults R) (hinv : LedgerInv R l) :
    LedgerInv R (selectAllVideosGlobal R l) := by
  rw [selectAllVideosGlobal]
  constructor
  · apply keysNodup_filter_append _ _ _ hinv.1
    · rw [map_selKey_allVideoSelections]
      exact nodup_flatMap_enumFrom_keys (fun r => r.videos.map GettyMedia.id) R 0
        fun r hr => (hwf r hr).1
    · intro a ha b hb hk
      rw [allVideoSelections] at hb
      obtain ⟨pair, hpair, hbm⟩ := List.mem_flatMap.mp hb
      obtain ⟨v, hv', rfl⟩ := List.mem_map.mp hbm
      obtain ⟨ha_mem, ha_pred⟩ := List.mem_filter.mp ha
      have hcomp : a.personIndex = pair.1 ∧ a.mediaId = v.id := by
        simpa [selKey, mkVideoSelection, Prod.mk.injEq] using hk
      have hphoto : a.mediaType = MediaType.photo := by
        rcases hat : a.mediaType with - | -
        · rw [hat] at ha_pred
          simp at ha_pred
        · rfl
      obtain ⟨result', hr', hmem'⟩ := hinv.2 a ha_mem
      have hgp : R.get? pair.1 = some pair.2 := get?_of_mem_enum hpair
      rw [hcomp.1, hgp] at hr'
      have hres : result' = pair.2 := (Option.some_inj.mp hr').symm
      rw [hres, hphoto] at hmem'
      obtain ⟨-, -, hdisj⟩ := hwf pair.2 (List.get?_mem hgp)
      have hvid : v.id ∈ pair.2.videos.map GettyMedia.id := List.mem_map.mpr ⟨v, hv', rfl⟩
      have hpid : a.mediaId ∈ pair.2.photos.map GettyMedia.id := hmem'
      rw [hcomp.2] at hpid
      exact hdisj v.id hvid hpid
  · intro s hs
    rcases List.mem_append.mp hs with hs | hs
    · exact hinv.2 s (List.mem_filter.mp hs).1
    · rw [allVideoSelections] at hs
      obtain ⟨pair, hpair, hbm⟩ := List.mem_flatMap.mp hs
      obtain ⟨v, hv', rfl⟩ := List.mem_map.mp hbm
      exact ⟨pair.2, get?_of_mem_enum hpair, List.mem_map.mpr ⟨v, hv', rfl⟩⟩

/-- The global select-all of photos keeps the invariant when every
row's id sets are clean. -/
theorem inv_selectPhotosGlobal (R : List PersonGettyResults) (l : List SelectedItem)
    (hwf : WellFormedResults R) (hinv : LedgerInv R l) :
    LedgerInv R (selectAllPhotosGlobal R l) := by
  rw [selectAllPhotosGlobal]
  constructor
  · apply keysNodup_filter_append _ _ _ hinv.1
    · rw [map_selKey_allPhotoSelections]
      exact nodup_flatMap_enumFrom_keys (fun r => r.photos.map GettyMedia.id) R 0
        fun r hr => (hwf r hr).2.1
    · intro a ha b hb hk
      rw [allPhotoSelections] at hb
      obtain ⟨pair, hpair, hbm⟩ := List.mem_flatMap.mp hb
      obtain ⟨v, hv', rfl⟩ := List.mem_map.mp hbm
      obtain ⟨ha_mem, ha_pred⟩ := List.mem_filter.mp ha
      have hcomp : a.personIndex = pair.1 ∧ a.mediaId = v.id := by
        simpa [selKey, mkPhotoSelection, Prod.mk.injEq] using hk
      have hvideo : a.mediaType = MediaType.video := by
        rcases hat : a.mediaType with - | -
        · rfl
        · rw [hat] at ha_pred
          simp at ha_pred
      obtain ⟨result', hr', hmem'⟩ := hinv.2 a ha_mem
      have hgp : R.get? pair.1 = some pair.2 := get?_of_mem_enum hpair
      rw [hcomp.1, hgp] at hr'
      have hres : result' = pair.2 := (Option.some_inj.mp hr').symm
      rw [hres, hvideo] at hmem'
      obtain ⟨-, -, hdisj⟩ := hwf pair.2 (List.get?_mem hgp)
      have hvid : a.mediaId ∈ pair.2.videos.map GettyMedia.id := hmem'
      have hpid : v.id ∈ pair.2.photos.map GettyMedia.id := List.mem_map.mpr ⟨v, hv', rfl⟩
      rw [hcomp.2] at hvid
      exact hdisj v.id hvid hpid
  · intro s hs
    rcases List.mem_append.mp hs with hs | hs
    · exact hinv.2 s (List.mem_filter.mp hs).1
    · rw [allPhotoSelections] at hs
      obtain ⟨pair, hpair, hbm⟩ := List.mem_flatMap.mp hs
      obtain ⟨v, hv', rfl⟩ := List.mem_map.mp hbm
      exact ⟨pair.2, get?_of_mem_enum hpair, List.mem_map.mpr ⟨v, hv', rfl⟩⟩

/-- Every single valid ledger action keeps the invariant. -/
theorem applyOp_preserves (R : List PersonGettyResults) (l : List SelectedItem)
    (op : LedgerOp) (hwf : WellFormedResults R) (hv : ValidOp R op)
    (hinv : LedgerInv R l) : LedgerInv R (applyOp R l op) := by
  cases op with
  | toggle i n m k => exact inv_toggle R i n m k l hv hinv
  | selectVideos i =>
    rcases hr : R.get? i with - | result
    · have hl : applyOp R l (LedgerOp.selectVideos i) = l := by rw [applyOp, hr]
      rw [hl]
      exact hinv
    · have hl : applyOp R l (LedgerOp.selectVideos i)
          = selectAllVideos i result.person.name result.videos l := by rw [applyOp, hr]
      rw [hl]
      exact inv_selectAllVideos R i result l hwf hr hinv
  | selectPhotos i =>
    rcases hr : R.get? i with - | result
    · have hl : applyOp R l (LedgerOp.selectPhotos i) = l := by rw [applyOp, hr]
      rw [hl]
      exact hinv
    · have hl : applyOp R l (LedgerOp.selectPhotos i)
          = selectAllPhotos i result.person.name result.photos l := by rw [applyOp, hr]
      rw [hl]
      exact inv_selectAllPhotos R i result l hwf hr hinv
  | deselectVideos i => exact inv_filter R l _ hinv
  | deselectPhotos i => exact inv_filter R l _ hinv
  | selectVideosGlobal => exact inv_selectVideosGlobal R l hwf hinv
  | selectPhotosGlobal => exact inv_selectPhotosGlobal R l hwf hinv
  | deselectVideosGlobal => exact inv_filter R l _ hinv
  | deselectPhotosGlobal => exact inv_filter R l _ hinv

/-- Every sequence of valid ledger actions keeps the invariant. -/
theorem applyOps_preserves (R : List PersonGettyResults) (hwf : WellFormedResults R) :
    ∀ (ops : List LedgerOp) (l : List SelectedItem),
      (∀ op ∈ ops, ValidOp R op) → LedgerInv R l → LedgerInv R (applyOps R ops l) := by
  intro ops
  induction ops with
  | nil => exact fun l _ hinv => hinv
  | cons op rest ih =>
    intro l hops hinv
    rw [applyOps, List.foldl_cons]
    exact ih (applyOp R l op) (fun o ho => hops o (List.mem_cons_of_mem op ho))
      (applyOp_preserves R l op hwf (hops op (List.mem_cons_self op rest)) hinv)

/-- C1 (amended): starting from the empty ledger, every sequence of
valid ledger actions (toggles drawn from the stored rows; the bulk
select/deselect buttons) keeps at most one selection per
`(personIndex, mediaId)` pair — provided each stored row's video ids
are pairwise distinct, its photo ids are pairwise distinct, and no id
occurs under both kinds of the same row. -/
theorem selection_ledger_invariant (R : List PersonGettyResults) (ops : List LedgerOp)
    (hwf : WellFormedResults R) (hops : ∀ op ∈ ops, ValidOp R op) :
    KeysNodup (applyOps R ops []) :=
  (applyOps_preserves R hwf ops []
    hops ⟨List.nodup_nil, fun s hs => absurd hs (List.not_mem_nil s)⟩).1

/-- A result row holding the same media id as both a video and a
photo of the same entity. -/
def dualMediaResults : List PersonGettyResults :=
  [{ person := janeDoe, videos := [mediaX], photos := [mediaX] }]

/-- Toggle the photo, then select-all the videos, of entity 0. -/
def dualOps : List LedgerOp :=
  [LedgerOp.toggle 0 "Jane Doe" mediaX MediaType.photo, LedgerOp.selectVideos 0]

/-- C1 fails as stated: over a result set where the same media id
occurs both as a video and as a photo of the same entity — a case the
claim explicitly includes — a valid toggle followed by select-all
videos leaves two selections with the key `(0, "x")`. -/
theorem selection_ledger_invariant_counterexample :
    (∀ op ∈ dualOps, ValidOp dualMediaResults op)
    ∧ ¬ KeysNodup (applyOps dualMediaResults dualOps []) := by
  constructor
  · intro op hop
    rcases List.mem_cons.mp hop with rfl | hop'
    · exact ⟨{ person := janeDoe, videos := [mediaX], photos := [mediaX] }, rfl,
        List.mem_singleton.mpr rfl⟩
    · rcases List.mem_cons.mp hop' with rfl | h0
      · trivial
      · exact absurd h0 (List.not_mem_nil op)
  · show ¬ (List.map selKey (applyOps dualMediaResults dualOps [])).Nodup
    decide

/-- A second concrete media item with a fresh id. -/
def mediaY : GettyMedia :=
  { id := "y", title := "t2", thumbnailUrl := "", previewUrl := "", compUrl := "c2",
    dateCreated := "d2" }

/-- A clean result row: distinct ids within and across kinds. -/
def cleanResults : List PersonGettyResults :=
  [{ person := janeDoe, videos := [mediaX], photos := [mediaY] }]

/-- Toggle the photo, then select-all the videos, over the clean
row. -/
def cleanOps : List LedgerOp :=
  [LedgerOp.toggle 0 "Jane Doe" mediaY MediaType.photo, LedgerOp.selectVideos 0]

/-- Witness for the amended C1 theorem over a clean result row. -/
theorem selection_ledger_invariant_witness :
    KeysNodup (applyOps cleanResults cleanOps []) :=
  selection_ledger_invariant cleanResults cleanOps
    (by
      intro r hr
      have hre : r = { person := janeDoe, videos := [mediaX], photos := [mediaY] } := by
        simpa [cleanResults] using hr
      subst hre
      exact ⟨by decide, by decide, by decide⟩)
    (by
      intro op hop
      rcases List.mem_cons.mp hop with rfl | hop'
      · exact ⟨{ person := janeDoe, videos := [mediaX], photos := [mediaY] }, rfl,
          List.mem_singleton.mpr rfl⟩
      · rcases List.mem_cons.mp hop' with rfl | h0
        · trivial
        · exact absurd h0 (List.not_mem_nil op))

end ScriptShot
